import Mathlib

/-!
Shallow embedding of src/src/App.tsx (a React demo of a bounded-concurrency
upload queue) together with a small-step model of the p-queue worker pool it
drives.  The reducer, its actions and the helper functions follow the source
line by line; JavaScript array semantics (findIndex returning -1, negative
slice indices, indexing past the array yielding undefined) are modelled
explicitly so that the reducer needs no case split the source does not have.
-/

namespace App

/-- One work item of the demo, `type Part = { id: number; success: null |
boolean }`.  The `id` field is an `Option` because a JavaScript object built
by spreading `undefined` (which happens in the reducer when `findIndex`
returns -1) has no `id` field at all; a real part always carries `some i`. -/
structure Part where
  id : Option Nat
  success : Option Bool
deriving DecidableEq, Repr, Inhabited

/-- The store state, `type State = { isUploading: boolean; items: Part[] }`. -/
structure State where
  isUploading : Bool
  items : List Part
deriving DecidableEq, Repr

/-- The four reducer actions of the source. -/
inductive Action where
  | ADD_ITEMS (payload : List Part)
  | START_UPLOAD
  | UPLOAD_SUCCESS (payload : Nat)
  | UPLOAD_FAILED (payload : Nat)
deriving DecidableEq, Repr

/-- The helper `const anyItemsPending = (items) => items.filter((p) =>
p.success === null).length > 0` defined inside the reducer. -/
def anyItemsPending (items : List Part) : Bool :=
  decide ((items.filter fun p => p.success == none).length > 0)

/-- The arrow function inside START_UPLOAD: `(p) => { if (p.success) return p;
return { ...p, success: null }; }`.  JavaScript truthiness: of the three
values `null`, `false`, `true` only `true` passes the test. -/
def resetPart (p : Part) : Part :=
  if p.success == some true then p else { p with success := none }

/-- JavaScript Array.prototype.findIndex: the index of the first element satisfying the
predicate, and -1 when there is none. -/
def findIndex (pred : Part → Bool) : List Part → Int
  | [] => -1
  | x :: xs =>
    if pred x then 0
    else
      let r := findIndex pred xs
      if r < 0 then -1 else r + 1

/-- JavaScript member access `l[i]` on an array: `undefined` (here `none`)
for a negative or out-of-range index. -/
def jsIndex (l : List Part) (i : Int) : Option Part :=
  if i < 0 then none else l.get? i.toNat

/-- ECMAScript index normalisation for Array.prototype.slice: a negative
index counts from the end (clamped at 0), a non-negative one is clamped at
the length. -/
def jsSliceIdx (len : Nat) (i : Int) : Nat :=
  if i < 0 then ((len : Int) + i).toNat else min i.toNat len

/-- JavaScript `l.slice(start, stop)` with both arguments present. -/
def jsSlice (l : List Part) (start stop : Int) : List Part :=
  (l.take (jsSliceIdx l.length stop)).drop (jsSliceIdx l.length start)

/-- JavaScript `l.slice(start)` with the stop argument defaulted to the length. -/
def jsSliceFrom (l : List Part) (start : Int) : List Part :=
  jsSlice l start (l.length : Int)

/-- The object literal `{ ...u, success: v }` where `u` is `items[idx]` and
may be `undefined`: spreading `undefined` contributes no fields, so the
result then has no `id`. -/
def spreadPart (u : Option Part) (v : Bool) : Part :=
  { id := u.bind Part.id, success := some v }

/-- The reducer of the source, case for case.  In UPLOAD_SUCCESS /
UPLOAD_FAILED the source computes `idx = items.findIndex(...)` and then
unconditionally builds `[...items.slice(0, idx), { ...items[idx], success },
...items.slice(idx + 1)]`; the JavaScript helpers above make the same
expression well defined for `idx = -1`. -/
def reducer (prevState : State) (action : Action) : State :=
  match action with
  | .ADD_ITEMS payload => { prevState with items := payload }
  | .START_UPLOAD =>
    let resetItems := prevState.items.map resetPart
    { prevState with isUploading := true, items := resetItems }
  | .UPLOAD_SUCCESS payload =>
    let idx := findIndex (fun i => i.id == some payload) prevState.items
    let nextItem := spreadPart (jsIndex prevState.items idx) true
    let items :=
      jsSlice prevState.items 0 idx ++ [nextItem] ++ jsSliceFrom prevState.items (idx + 1)
    { prevState with items := items, isUploading := anyItemsPending items }
  | .UPLOAD_FAILED payload =>
    let idx1 := findIndex (fun i => i.id == some payload) prevState.items
    let nextItem1 := spreadPart (jsIndex prevState.items idx1) false
    let items1 :=
      jsSlice prevState.items 0 idx1 ++ [nextItem1] ++ jsSliceFrom prevState.items (idx1 + 1)
    { prevState with items := items1, isUploading := anyItemsPending items1 }

/-- The initial store state, `() => ({ isUploading: false, items: [] })`. -/
def initialState : State := { isUploading := false, items := [] }

/-- The concurrency limit, `const WORKER_POOL = 5`. -/
def WORKER_POOL : Nat := 5

/-- The batch size, `const TOTAL_PARTS = 500`. -/
def TOTAL_PARTS : Nat := 500

/-- The list `Array(n).fill(undefined).map((_, i) => i)` of identifiers
0..n-1; the component builds it with `n = TOTAL_PARTS`. -/
def fakeParts (n : Nat) : List Nat := List.range n

/-- The handler `handleInitialize`: dispatches ADD_ITEMS with `fakeParts.map((id) => ({
id, success: null }))`.  Generalised over the count `n`; the source fixes
`n = TOTAL_PARTS`. -/
def handleInitialize (s : State) (n : Nat) : State :=
  reducer s (.ADD_ITEMS ((fakeParts n).map fun id => { id := some id, success := none }))

/-- The first statement of `run()`: `dispatch({ type: "START_UPLOAD" })`. -/
def beginRun (s : State) : State := reducer s .START_UPLOAD

/-- The work list `const toProcess = state.items.filter((part) =>
part.success !== true)`,
computed in `run()` on the state captured before START_UPLOAD is dispatched. -/
def toProcess (s : State) : List Part :=
  s.items.filter fun part => !(part.success == some true)

/-- The filter `state.items.filter((p) => p.success === null)` — the items the spec
calls pending (outcome still Unresolved). -/
def pendingItems (items : List Part) : List Part :=
  items.filter fun p => p.success == none

/-- The dispatch a finished task performs: UPLOAD_SUCCESS on resolution,
UPLOAD_FAILED on rejection. -/
def outcomeAction (payload : Nat) (v : Bool) : Action :=
  if v then .UPLOAD_SUCCESS payload else .UPLOAD_FAILED payload

/-- Dispatching a sequence of task outcomes into the store, in arrival
order. -/
def applyOutcomes (s : State) (outs : List (Nat × Bool)) : State :=
  outs.foldl (fun st ob => reducer st (outcomeAction ob.1 ob.2)) s

/-- Modelled from the spec: one press of the Run button (the repository ships
no test driver for repeated runs).  `run()` dispatches START_UPLOAD and then
lets the pool report one outcome per identifier of `toProcess` (computed on
the pre-dispatch state), in arbitrary arrival order; `RetryRuns s t` says `t`
arises from `s` by any number of such passes, each drawing its reported
identifiers from the then-current `toProcess` set. -/
inductive RetryRuns : State → State → Prop where
  | refl (s : State) : RetryRuns s s
  | step (s t : State) (outs : List (Nat × Bool)) :
      RetryRuns s t →
      (∀ ob ∈ outs, some (ob : Nat × Bool).1 ∈ (toProcess t).map Part.id) →
      RetryRuns s (applyOutcomes (beginRun t) outs)

/-- Scheduler state of one `PQueue` run.  The p-queue library the source
imports is external code, modelled here from its documented contract:
`queued` holds the added, not yet dequeued tasks (the queue's `size`),
`running` the dequeued, not yet settled ones (its `pending`).  A task of
`run()` dispatches its outcome before it settles, so an identifier moves out
of `running` exactly when its outcome has been dispatched into the ledger
and recorded. -/
structure PoolState where
  queued : List Nat
  running : List Nat
  ledger : State
  recorded : List (Nat × Bool)
deriving DecidableEq, Repr

/-- Modelled from the spec: the bounded worker pool of the design (its
implementation, the p-queue library, is imported but not part of the
repository; the library's documented contract agrees).  A queued task may
start only while fewer than `limit` tasks are in flight (p-queue's
`concurrency` option), and any in-flight task may settle with either
outcome, dispatching it first.  The `finish` step is free to pick any
running task, so every arrival order of completions is a run of this
relation. -/
inductive PoolStep (limit : Nat) : PoolState → PoolState → Prop where
  | start (st : PoolState) (i : Nat) (rest : List Nat)
      (hq : st.queued = i :: rest) (hcap : st.running.length < limit) :
      PoolStep limit st { st with queued := rest, running := st.running ++ [i] }
  | finish (st : PoolState) (i : Nat) (b : Bool) (hi : i ∈ st.running) :
      PoolStep limit st
        { st with running := st.running.erase i,
                  ledger := reducer st.ledger (outcomeAction i b),
                  recorded := st.recorded ++ [(i, b)] }

/-- The pool as `run()` arms it: all identifiers queued, nothing started. -/
def initPool (ids : List Nat) (s0 : State) : PoolState :=
  { queued := ids, running := [], ledger := s0, recorded := [] }

/-- States one run of the pool can reach, over every interleaving. -/
def PoolReach (limit : Nat) (ids : List Nat) (s0 : State) (st : PoolState) : Prop :=
  Relation.ReflTransGen (PoolStep limit) (initPool ids s0) st

/-- The pool instance `run()` builds: it submits the identifiers of
`toProcess` (every real part carries an id) against the ledger state left by
the START_UPLOAD dispatch. -/
def runPool (s : State) : PoolState :=
  initPool ((toProcess s).filterMap Part.id) (beginRun s)

/-- Resolution condition of `await promises.onEmpty()`: p-queue documents
`onEmpty` as settling when `size` reaches 0, i.e. when every added task has
been dequeued — regardless of how many dequeued tasks are still running
(its `onIdle` is the variant that also waits for `pending = 0`). -/
def onEmptyResolved (st : PoolState) : Prop := st.queued = []

/-- Every submitted identifier has had its outcome callback dispatched. -/
def allOutcomesRecorded (ids : List Nat) (st : PoolState) : Prop :=
  ∀ i ∈ ids, ∃ b, (i, b) ∈ st.recorded

/-! ## Helper lemmas about the JavaScript primitives -/

lemma findIndex_eq_neg_one {pred : Part → Bool} :
    ∀ {l : List Part}, (∀ p ∈ l, pred p = false) → findIndex pred l = -1
  | [], _ => rfl
  | x :: xs, h => by
    have hx : pred x = false := h x (List.mem_cons_self x xs)
    have ih := findIndex_eq_neg_one (fun p hp => h p (List.mem_cons_of_mem x hp))
    simp [findIndex, hx, ih]

lemma findIndex_spec (pred : Part → Bool) {l : List Part} (h : ∃ p ∈ l, pred p = true) :
    ∃ k : Nat, findIndex pred l = (k : Int) ∧ k < l.length ∧ pred (l.getD k default) = true := by
  induction l with
  | nil => simp at h
  | cons x xs ih =>
    by_cases hx : pred x = true
    · exact ⟨0, by simp [findIndex, hx], by simp, by simpa using hx⟩
    · obtain ⟨p, hp, hpred⟩ := h
      have hpxs : p ∈ xs := by
        rcases List.mem_cons.mp hp with h1 | h1
        · exact absurd (h1 ▸ hpred) hx
        · exact h1
      obtain ⟨k, hk, hklen, hkp⟩ := ih ⟨p, hpxs, hpred⟩
      refine ⟨k + 1, ?_, by simpa using Nat.succ_lt_succ hklen, by simpa using hkp⟩
      have hknn : ¬ ((k : Int) < 0) := by omega
      simp only [findIndex, hx, if_false, hk]
      rw [if_neg hknn]
      push_cast
      ring

lemma jsSlice_zero_coe (l : List Part) (k : Nat) (hk : k ≤ l.length) :
    jsSlice l 0 (k : Int) = l.take k := by
  unfold jsSlice jsSliceIdx
  rw [if_neg (by omega : ¬ ((k : Int) < 0)), if_neg (by omega : ¬ ((0 : Int) < 0))]
  have h1 : (k : Int).toNat = k := by omega
  have h2 : (0 : Int).toNat = 0 := rfl
  rw [h1, h2, min_eq_left hk]
  simp

lemma jsSliceFrom_coe (l : List Part) (k : Nat) :
    jsSliceFrom l (k : Int) = l.drop k := by
  unfold jsSliceFrom jsSlice jsSliceIdx
  rw [if_neg (by omega : ¬ ((l.length : Int) < 0)), if_neg (by omega : ¬ ((k : Int) < 0))]
  have h1 : (l.length : Int).toNat = l.length := by omega
  have h2 : (k : Int).toNat = k := by omega
  rw [h1, h2, min_self, List.take_length]
  rcases le_total k l.length with hkl | hkl
  · rw [min_eq_left hkl]
  · rw [min_eq_right hkl, List.drop_length, Eq.symm (List.drop_eq_nil_of_le hkl)]

lemma jsSlice_zero_neg_one (l : List Part) : jsSlice l 0 (-1) = l.dropLast := by
  unfold jsSlice jsSliceIdx
  rw [if_pos (by omega : (-1 : Int) < 0), if_neg (by omega : ¬ ((0 : Int) < 0))]
  have h1 : ((l.length : Int) + (-1)).toNat = l.length - 1 := by omega
  have h2 : (0 : Int).toNat = 0 := rfl
  rw [h1, h2, ← List.dropLast_eq_take]
  simp

lemma jsIndex_coe (l : List Part) (k : Nat) : jsIndex l (k : Int) = l.get? k := by
  unfold jsIndex
  rw [if_neg (by omega : ¬ ((k : Int) < 0))]
  congr 1

lemma jsIndex_neg_one (l : List Part) : jsIndex l (-1) = none := rfl

/-- Both outcome actions run the same code path, for the respective value of
the `success` field. -/
lemma reducer_outcome (s : State) (payload : Nat) (v : Bool) :
    reducer s (outcomeAction payload v) =
      { s with
        items :=
          jsSlice s.items 0 (findIndex (fun i => i.id == some payload) s.items) ++
            [spreadPart (jsIndex s.items (findIndex (fun i => i.id == some payload) s.items)) v] ++
            jsSliceFrom s.items (findIndex (fun i => i.id == some payload) s.items + 1),
        isUploading :=
          anyItemsPending
            (jsSlice s.items 0 (findIndex (fun i => i.id == some payload) s.items) ++
              [spreadPart (jsIndex s.items (findIndex (fun i => i.id == some payload) s.items)) v] ++
              jsSliceFrom s.items (findIndex (fun i => i.id == some payload) s.items + 1)) } := by
  cases v <;> rfl

/-- When the identifier is found at index `k`, the dispatch is a positional
update of the item list at `k`. -/
lemma reducer_outcome_present (s : State) (payload : Nat) (v : Bool) (k : Nat)
    (hfi : findIndex (fun i => i.id == some payload) s.items = (k : Int))
    (hk : k < s.items.length) :
    reducer s (outcomeAction payload v) =
      { s with
        items := s.items.set k { s.items.getD k default with success := some v },
        isUploading :=
          anyItemsPending (s.items.set k { s.items.getD k default with success := some v }) } := by
  have hset :
      s.items.set k { s.items.getD k default with success := some v } =
        s.items.take k ++ [{ s.items.getD k default with success := some v }] ++
          s.items.drop (k + 1) := by
    rw [List.set_eq_take_append_cons_drop, if_pos hk]
    simp
  have hcast : (k : Int) + 1 = ((k + 1 : Nat) : Int) := by push_cast; ring
  have hget : s.items.get? k = some (s.items.getD k default) := by
    rw [List.get?_eq_getElem?, List.getElem?_eq_getElem hk, List.getD_eq_getElem _ _ hk]
  rw [reducer_outcome, hfi, jsSlice_zero_coe _ _ (le_of_lt hk), hcast, jsSliceFrom_coe,
    jsIndex_coe, hget, hset]
  rfl

/-- When the identifier is absent, `findIndex` gives -1 and the dispatch
produces the duplicated, corrupted list. -/
lemma reducer_outcome_absent (s : State) (payload : Nat) (v : Bool)
    (hfi : findIndex (fun i => i.id == some payload) s.items = -1) :
    reducer s (outcomeAction payload v) =
      { s with
        items := s.items.dropLast ++ [{ id := none, success := some v }] ++ s.items,
        isUploading :=
          anyItemsPending (s.items.dropLast ++ [{ id := none, success := some v }] ++ s.items) } := by
  have hcast : (-1 : Int) + 1 = ((0 : Nat) : Int) := by norm_num
  rw [reducer_outcome, hfi, jsSlice_zero_neg_one, hcast, jsSliceFrom_coe, jsIndex_neg_one,
    List.drop_zero]
  rfl

/-! ## Frame lemmas about the item list -/

lemma resetPart_id (p : Part) : (resetPart p).id = p.id := by
  unfold resetPart
  split <;> rfl

lemma anyItemsPending_iff (items : List Part) :
    anyItemsPending items = true ↔ ∃ p ∈ items, p.success = none := by
  unfold anyItemsPending
  rw [decide_eq_true_eq]
  constructor
  · intro h
    obtain ⟨p, hp⟩ := List.exists_mem_of_length_pos h
    obtain ⟨hmem, hpred⟩ := List.mem_filter.mp hp
    exact ⟨p, hmem, by simpa using hpred⟩
  · rintro ⟨p, hmem, hnone⟩
    have : p ∈ items.filter fun p => p.success == none :=
      List.mem_filter.mpr ⟨hmem, by simp [hnone]⟩
    exact List.length_pos.mpr (List.ne_nil_of_mem this)

lemma map_id_set_success (l : List Part) (k : Nat) (v : Option Bool) (hk : k < l.length) :
    (l.set k { l.getD k default with success := v }).map Part.id = l.map Part.id := by
  apply List.ext_getElem?
  intro n
  rw [List.getElem?_map, List.getElem?_map]
  by_cases hn : n = k
  · subst hn
    rw [List.getElem?_set_self (by simpa using hk), List.getElem?_eq_getElem hk,
      List.getD_eq_getElem _ _ hk]
    rfl
  · rw [List.getElem?_set_ne (fun h => hn h.symm)]

lemma getD_set_ne (l : List Part) (k j : Nat) (a d : Part) (h : j ≠ k) :
    (l.set k a).getD j d = l.getD j d := by
  rw [List.getD_eq_getElem?_getD, List.getD_eq_getElem?_getD,
    List.getElem?_set_ne (Ne.symm h)]

lemma findIndex_congr_ids (c : Option Nat) :
    ∀ {l1 l2 : List Part}, l1.map Part.id = l2.map Part.id →
      findIndex (fun i => i.id == c) l1 = findIndex (fun i => i.id == c) l2
  | [], [], _ => rfl
  | [], _ :: _, h => by simp at h
  | _ :: _, [], h => by simp at h
  | x :: xs, y :: ys, h => by
    obtain ⟨hxy, htl⟩ : x.id = y.id ∧ xs.map Part.id = ys.map Part.id := by simpa using h
    have ih := findIndex_congr_ids c htl
    simp only [findIndex, hxy, ih]

lemma pending_reset_ids :
    ∀ l : List Part, (pendingItems (l.map resetPart)).map Part.id =
      (l.filter fun part => !(part.success == some true)).map Part.id
  | [] => rfl
  | p :: l => by
    have ih := pending_reset_ids l
    by_cases hp : p.success = some true
    · simp [pendingItems, resetPart, List.filter_cons, hp] at ih ⊢
      exact ih
    · have hb : (p.success == some true) = false := by
        simpa using hp
      simp [pendingItems, resetPart, List.filter_cons, hb] at ih ⊢
      exact ih

lemma getD_map_resetPart (l : List Part) (k : Nat) :
    (l.map resetPart).getD k default = resetPart (l.getD k default) := by
  rw [List.getD_eq_getElem?_getD, List.getD_eq_getElem?_getD, List.getElem?_map]
  cases h : l[k]? with
  | none => rfl
  | some a => rfl

lemma succeeded_notin_toProcess (st : State) (p : Part) (hp : p.success = some true) :
    p ∉ toProcess st := by
  intro hmem
  obtain ⟨-, hpred⟩ := List.mem_filter.mp hmem
  simp [hp] at hpred

/-! ## The claims -/

/-- C6: for every prior state and every N, `handleInitialize` (ADD_ITEMS)
produces a ledger of exactly N items, all with Unresolved outcome, with
identifiers 0..N-1 in that order, replacing any prior item set (the resulting
list does not mention the previous one). -/
theorem c6_initialize_fresh (s : State) (n : Nat) :
    (handleInitialize s n).items =
      (List.range n).map (fun i => ({ id := some i, success := none } : Part)) ∧
    (handleInitialize s n).items.length = n ∧
    (∀ p ∈ (handleInitialize s n).items, p.success = none) ∧
    (handleInitialize s n).items.map Part.id = (List.range n).map some := by
  refine ⟨rfl, ?_, ?_, ?_⟩
  · simp [handleInitialize, reducer, fakeParts]
  · intro p hp
    simp only [handleInitialize, reducer, fakeParts, List.mem_map] at hp
    obtain ⟨i, -, rfl⟩ := hp
    rfl
  · simp [handleInitialize, reducer, fakeParts, List.map_map, Function.comp]

/-- C8: after every UPLOAD_SUCCESS and every UPLOAD_FAILED dispatch, the
stored `isUploading` flag equals `pending().length > 0`: it is true exactly
when some item of the full list still has Unresolved outcome. -/
theorem c8_uploading_tracks_pending (s : State) (payload : Nat) (v : Bool) :
    (reducer s (outcomeAction payload v)).isUploading =
      decide (0 < (pendingItems (reducer s (outcomeAction payload v)).items).length) ∧
    ((reducer s (outcomeAction payload v)).isUploading = true ↔
      ∃ p ∈ (reducer s (outcomeAction payload v)).items, p.success = none) := by
  rw [reducer_outcome]
  exact ⟨rfl, anyItemsPending_iff _⟩

/-- C3 fails on the code: the reducer has no NotFoundError path.  Dispatching
UPLOAD_SUCCESS for the absent identifier 5 on a one-item ledger silently
yields a corrupted two-item list instead of failing. -/
theorem c3_absent_id_not_rejected :
    reducer { isUploading := true, items := [{ id := some 0, success := none }] }
        (.UPLOAD_SUCCESS 5) =
      { isUploading := true,
        items := [{ id := none, success := some true }, { id := some 0, success := none }] } := by
  rfl

/-- C10: for every state whose item list does not contain the identifier, the
UPLOAD_SUCCESS / UPLOAD_FAILED dispatch does not raise: it yields the
original list minus its last element, then one id-less item with the
corresponding success value, then the whole original list — doubling the
length (and going from 0 to 1 on an empty list). -/
theorem c10_absent_id_duplicates (s : State) (payload : Nat) (v : Bool)
    (habs : ∀ p ∈ s.items, p.id ≠ some payload) :
    (reducer s (outcomeAction payload v)).items =
      s.items.dropLast ++ [{ id := none, success := some v }] ++ s.items ∧
    (reducer s (outcomeAction payload v)).items.length =
      (if s.items.length = 0 then 1 else 2 * s.items.length) := by
  have hfi : findIndex (fun i => i.id == some payload) s.items = -1 :=
    findIndex_eq_neg_one (fun p hp => by simpa using habs p hp)
  rw [reducer_outcome_absent s payload v hfi]
  refine ⟨rfl, ?_⟩
  simp only [List.length_append, List.length_dropLast, List.length_singleton]
  split_ifs with h <;> omega

/-- Witness for C10: the absent identifier 5 against a one-item ledger. -/
theorem c10_witness :
    (∀ p ∈ [({ id := some 0, success := none } : Part)], p.id ≠ some 5) ∧
    (reducer { isUploading := true, items := [{ id := some 0, success := none }] }
          (outcomeAction 5 true)).items =
      [({ id := none, success := some true } : Part), { id := some 0, success := none }] := by
  refine ⟨by decide, ?_⟩
  have h := c10_absent_id_duplicates
    { isUploading := true, items := [{ id := some 0, success := none }] } 5 true (by decide)
  exact h.1

/-- C9: for an identifier present in the item list, UPLOAD_SUCCESS /
UPLOAD_FAILED change only the success field of the (first) item carrying
that identifier: the result is a positional update at its index, the length,
the identifiers and their order are unchanged, and every other position is
untouched. -/
theorem c9_outcome_frame (s : State) (payload : Nat) (v : Bool)
    (hmem : ∃ p ∈ s.items, p.id = some payload) :
    ∃ k : Nat, k < s.items.length ∧
      (s.items.getD k default).id = some payload ∧
      (reducer s (outcomeAction payload v)).items =
        s.items.set k { s.items.getD k default with success := some v } ∧
      (reducer s (outcomeAction payload v)).items.length = s.items.length ∧
      (reducer s (outcomeAction payload v)).items.map Part.id = s.items.map Part.id ∧
      ∀ j, j ≠ k →
        (reducer s (outcomeAction payload v)).items.getD j default =
          s.items.getD j default := by
  obtain ⟨k, hfi, hk, hpred⟩ := findIndex_spec (fun i => i.id == some payload)
    (by obtain ⟨p, hp, hid⟩ := hmem; exact ⟨p, hp, by simp [hid]⟩)
  have hid : (s.items.getD k default).id = some payload := by simpa using hpred
  rw [reducer_outcome_present s payload v k hfi hk]
  exact ⟨k, hk, hid, rfl, by rw [List.length_set],
    map_id_set_success _ _ _ hk, fun j hj => getD_set_ne _ _ _ _ _ hj⟩

/-- Witness for C9: identifier 1 in a two-item ledger, UPLOAD_FAILED. -/
theorem c9_witness :
    (∃ p ∈ [({ id := some 0, success := none } : Part), { id := some 1, success := none }],
      p.id = some 1) ∧
    ∃ k : Nat, k < 2 ∧
      (reducer
          { isUploading := true,
            items := [{ id := some 0, success := none }, { id := some 1, success := none }] }
          (outcomeAction 1 false)).items =
        [({ id := some 0, success := none } : Part), { id := some 1, success := none }].set k
          { [({ id := some 0, success := none } : Part),
              { id := some 1, success := none }].getD k default with success := some false } := by
  refine ⟨by decide, ?_⟩
  obtain ⟨k, hk, -, hset, -⟩ := c9_outcome_frame
    { isUploading := true,
      items := [{ id := some 0, success := none }, { id := some 1, success := none }] }
    1 false (by decide)
  exact ⟨k, hk, hset⟩

/-- C7: outcome dispatches for two distinct identifiers present in the list
commute — the final store state does not depend on the arrival order of the
callbacks. -/
theorem c7_outcome_order_independent (s : State) (a b : Nat) (va vb : Bool) (hab : a ≠ b)
    (ha : ∃ p ∈ s.items, p.id = some a) (hb : ∃ p ∈ s.items, p.id = some b) :
    reducer (reducer s (outcomeAction a va)) (outcomeAction b vb) =
      reducer (reducer s (outcomeAction b vb)) (outcomeAction a va) := by
  obtain ⟨ka, hfa, hka, hpa⟩ := findIndex_spec (fun i => i.id == some a)
    (by obtain ⟨p, hp, hid⟩ := ha; exact ⟨p, hp, by simp [hid]⟩)
  obtain ⟨kb, hfb, hkb, hpb⟩ := findIndex_spec (fun i => i.id == some b)
    (by obtain ⟨p, hp, hid⟩ := hb; exact ⟨p, hp, by simp [hid]⟩)
  have hida : (s.items.getD ka default).id = some a := by simpa using hpa
  have hidb : (s.items.getD kb default).id = some b := by simpa using hpb
  have hne : ka ≠ kb := by
    intro h
    rw [h, hidb] at hida
    exact hab (Option.some.inj hida).symm
  have hmapA :
      (s.items.set ka { s.items.getD ka default with success := some va }).map Part.id =
        s.items.map Part.id := map_id_set_success _ _ _ hka
  have hmapB :
      (s.items.set kb { s.items.getD kb default with success := some vb }).map Part.id =
        s.items.map Part.id := map_id_set_success _ _ _ hkb
  rw [reducer_outcome_present s a va ka hfa hka, reducer_outcome_present s b vb kb hfb hkb]
  have hfb2 :
      findIndex (fun i => i.id == some b)
        (s.items.set ka { s.items.getD ka default with success := some va }) = (kb : Int) :=
    (findIndex_congr_ids (some b) hmapA).trans hfb
  have hfa2 :
      findIndex (fun i => i.id == some a)
        (s.items.set kb { s.items.getD kb default with success := some vb }) = (ka : Int) :=
    (findIndex_congr_ids (some a) hmapB).trans hfa
  have hkb2 : kb <
      (s.items.set ka { s.items.getD ka default with success := some va }).length := by
    rw [List.length_set]; exact hkb
  have hka2 : ka <
      (s.items.set kb { s.items.getD kb default with success := some vb }).length := by
    rw [List.length_set]; exact hka
  rw [reducer_outcome_present _ b vb kb hfb2 hkb2, reducer_outcome_present _ a va ka hfa2 hka2]
  have hgb :
      (s.items.set ka { s.items.getD ka default with success := some va }).getD kb default =
        s.items.getD kb default := getD_set_ne _ _ _ _ _ (Ne.symm hne)
  have hga :
      (s.items.set kb { s.items.getD kb default with success := some vb }).getD ka default =
        s.items.getD ka default := getD_set_ne _ _ _ _ _ hne
  rw [hgb, hga,
    List.set_comm { s.items.getD ka default with success := some va }
      { s.items.getD kb default with success := some vb } s.items hne]

/-- Witness for C7: identifiers 0 and 1 in a two-item ledger, success then
failure against failure then success. -/
theorem c7_witness :
    reducer
        (reducer
          { isUploading := true,
            items := [{ id := some 0, success := none }, { id := some 1, success := none }] }
          (outcomeAction 0 true)) (outcomeAction 1 false) =
      reducer
        (reducer
          { isUploading := true,
            items := [{ id := some 0, success := none }, { id := some 1, success := none }] }
          (outcomeAction 1 false)) (outcomeAction 0 true) :=
  c7_outcome_order_independent
    { isUploading := true,
      items := [{ id := some 0, success := none }, { id := some 1, success := none }] }
    0 1 true false (by decide) (by decide) (by decide)

/-- C4: START_UPLOAD sets `isUploading`, resets every Failed item to
Unresolved, leaves Succeeded items (and the list length) unchanged; the work
list `toProcess` that `run()` then submits carries exactly the identifiers of
the resulting pending set. -/
theorem c4_begin_run (s : State) :
    (beginRun s).isUploading = true ∧
    (beginRun s).items.length = s.items.length ∧
    (∀ k : Nat, (s.items.getD k default).success = some false →
      (beginRun s).items.getD k default = { s.items.getD k default with success := none }) ∧
    (∀ k : Nat, (s.items.getD k default).success = some true →
      (beginRun s).items.getD k default = s.items.getD k default) ∧
    (pendingItems (beginRun s).items).map Part.id = (toProcess s).map Part.id := by
  refine ⟨rfl, by simp [beginRun, reducer], ?_, ?_, pending_reset_ids s.items⟩
  · intro k hk
    rw [show (beginRun s).items = s.items.map resetPart from rfl, getD_map_resetPart]
    rw [List.getD_eq_getElem?_getD] at hk
    simp [resetPart, List.getD_eq_getElem?_getD, hk]
  · intro k hk
    rw [show (beginRun s).items = s.items.map resetPart from rfl, getD_map_resetPart]
    rw [List.getD_eq_getElem?_getD] at hk
    simp [resetPart, List.getD_eq_getElem?_getD, hk]

lemma toProcess_id_present (t : State) {x : Nat}
    (hx : some x ∈ (toProcess t).map Part.id) : some x ∈ t.items.map Part.id := by
  obtain ⟨q, hqmem, hqid⟩ := List.mem_map.mp hx
  exact List.mem_map.mpr ⟨q, (List.mem_filter.mp hqmem).1, hqid⟩

/-- With duplicate-free identifiers, a succeeded item's identifier is never
among the identifiers of the work list. -/
lemma succeeded_id_not_in_toProcess (t : State) (k : Nat)
    (hnd : (t.items.map Part.id).Nodup) (hk : k < t.items.length)
    (hsucc : (t.items.getD k default).success = some true)
    {x : Nat} (hx : some x ∈ (toProcess t).map Part.id) :
    (t.items.getD k default).id ≠ some x := by
  obtain ⟨q, hqmem, hqid⟩ := List.mem_map.mp hx
  obtain ⟨hqit, hqpred⟩ := List.mem_filter.mp hqmem
  intro hid
  have hkmem : t.items.getD k default ∈ t.items := by
    rw [List.getD_eq_getElem _ _ hk]
    exact List.getElem_mem hk
  have hq : q = t.items.getD k default :=
    List.inj_on_of_nodup_map hnd hqit hkmem (by rw [hqid, hid])
  rw [hq] at hqpred
  rw [List.getD_eq_getElem?_getD] at hsucc
  simp [hsucc] at hqpred

/-- Dispatching any sequence of outcomes whose identifiers are present in the
reference list and differ from the identifier at position `k` leaves the
identifier map and the item at `k` unchanged. -/
lemma applyOutcomes_frame (s0 : State) (k : Nat) (outs : List (Nat × Bool)) :
    ∀ u : State,
      u.items.map Part.id = s0.items.map Part.id →
      u.items.getD k default = s0.items.getD k default →
      (∀ ob ∈ outs, (∃ p ∈ s0.items, p.id = some (ob : Nat × Bool).1) ∧
        (s0.items.getD k default).id ≠ some (ob : Nat × Bool).1) →
      (applyOutcomes u outs).items.map Part.id = s0.items.map Part.id ∧
      (applyOutcomes u outs).items.getD k default = s0.items.getD k default := by
  induction outs with
  | nil => exact fun u hmap hgd _ => ⟨hmap, hgd⟩
  | cons ob outs ih =>
    intro u hmap hgd hval
    obtain ⟨⟨p, hp, hpid⟩, hnid⟩ := hval ob (List.mem_cons_self _ _)
    have hpres : ∃ q ∈ u.items, q.id = some ob.1 := by
      have hmem : some ob.1 ∈ u.items.map Part.id := by
        rw [hmap]
        exact List.mem_map.mpr ⟨p, hp, hpid⟩
      obtain ⟨q, hq, hqid⟩ := List.mem_map.mp hmem
      exact ⟨q, hq, hqid⟩
    obtain ⟨j, hfj, hj, hpj⟩ := findIndex_spec (fun i => i.id == some ob.1)
      (by obtain ⟨q, hq, hqid⟩ := hpres; exact ⟨q, hq, by simp [hqid]⟩)
    have hjid : (u.items.getD j default).id = some ob.1 := by simpa using hpj
    have hjk : j ≠ k := by
      intro h
      rw [h, hgd] at hjid
      exact hnid hjid
    have hstep : applyOutcomes u (ob :: outs) =
        applyOutcomes (reducer u (outcomeAction ob.1 ob.2)) outs := rfl
    rw [hstep, reducer_outcome_present u ob.1 ob.2 j hfj hj]
    exact ih _ ((map_id_set_success u.items j _ hj).trans hmap)
      ((getD_set_ne u.items j k _ _ (Ne.symm hjk)).trans hgd)
      (fun o ho => hval o (List.mem_cons_of_mem _ ho))

/-- C5: with duplicate-free identifiers, an item that is Succeeded is left
untouched by every further retry pass (START_UPLOAD followed by outcome
dispatches for identifiers of the then-current work list, in any order), and
it is never part of the work list the pool processes. -/
theorem c5_succeeded_immutable (s t : State) (k : Nat)
    (hnd : (s.items.map Part.id).Nodup)
    (hk : k < s.items.length)
    (hsucc : (s.items.getD k default).success = some true)
    (hrun : RetryRuns s t) :
    t.items.getD k default = s.items.getD k default ∧
    t.items.map Part.id = s.items.map Part.id ∧
    s.items.getD k default ∉ toProcess t := by
  have main : t.items.getD k default = s.items.getD k default ∧
      t.items.map Part.id = s.items.map Part.id := by
    induction hrun with
    | refl => exact ⟨rfl, rfl⟩
    | step t' outs hrt hval ih =>
      obtain ⟨ihgd, ihmap⟩ := ih
      have hmapb : (beginRun t').items.map Part.id = s.items.map Part.id := by
        rw [show (beginRun t').items = t'.items.map resetPart from rfl, List.map_map,
          show Part.id ∘ resetPart = Part.id from funext resetPart_id, ihmap]
      have hgdb : (beginRun t').items.getD k default = s.items.getD k default := by
        rw [show (beginRun t').items = t'.items.map resetPart from rfl, getD_map_resetPart,
          ihgd]
        have hsucc2 := hsucc
        rw [List.getD_eq_getElem?_getD] at hsucc2
        simp [resetPart, List.getD_eq_getElem?_getD, hsucc2]
      have hval' : ∀ ob ∈ outs, (∃ p ∈ s.items, p.id = some (ob : Nat × Bool).1) ∧
          (s.items.getD k default).id ≠ some (ob : Nat × Bool).1 := by
        intro ob hob
        have hx := hval ob hob
        constructor
        · have hmem := toProcess_id_present t' hx
          rw [ihmap] at hmem
          obtain ⟨p, hp, hpid⟩ := List.mem_map.mp hmem
          exact ⟨p, hp, hpid⟩
        · have hnd' : (t'.items.map Part.id).Nodup := ihmap.symm ▸ hnd
          have hlen : t'.items.length = s.items.length := by
            have hcg := congrArg List.length ihmap
            simpa using hcg
          have hsucc' : (t'.items.getD k default).success = some true := by
            rw [ihgd]; exact hsucc
          have hne := succeeded_id_not_in_toProcess t' k hnd' (by omega) hsucc' hx
          rw [ihgd] at hne
          exact hne
      obtain ⟨hm, hg⟩ := applyOutcomes_frame s k outs (beginRun t') hmapb hgdb hval'
      exact ⟨hg, hm⟩
  exact ⟨main.1, main.2, succeeded_notin_toProcess t _ hsucc⟩

/-- Witness for C5: after one retry pass that fails item 1 again, item 0
keeps its Succeeded outcome. -/
theorem c5_witness :
    (applyOutcomes
        (beginRun
          { isUploading := false,
            items := [{ id := some 0, success := some true },
              { id := some 1, success := some false }] })
        [(1, false)]).items.getD 0 default =
      ({ id := some 0, success := some true } : Part) := by
  have h := c5_succeeded_immutable
    { isUploading := false,
      items := [{ id := some 0, success := some true }, { id := some 1, success := some false }] }
    _ 0 (by decide) (by decide) (by decide)
    (RetryRuns.step _ _ [(1, false)] (RetryRuns.refl _) (by decide))
  exact h.1

/-- One step of the pool keeps the in-flight count within the limit. -/
lemma poolStep_running_le (limit : Nat) (st st2 : PoolState) (h : PoolStep limit st st2)
    (hle : st.running.length ≤ limit) : st2.running.length ≤ limit := by
  cases h with
  | start i rest hq hcap =>
    show (st.running ++ [i]).length ≤ limit
    rw [List.length_append]
    simpa using hcap
  | finish i b hi =>
    show (st.running.erase i).length ≤ limit
    exact le_trans (List.length_erase_le _ _) hle

/-- C1: over every interleaving of task starts and completions, the number of
in-flight work invocations of one pool run never exceeds the configured
concurrency limit. -/
theorem c1_inflight_bounded (limit : Nat) (ids : List Nat) (s0 : State) (st : PoolState)
    (h : PoolReach limit ids s0 st) : st.running.length ≤ limit := by
  induction h with
  | refl => simp [initPool]
  | tail hab hbc ih => exact poolStep_running_le _ _ _ hbc ih

/-- Witness for C1: a state of the pool over identifiers 0 and 1 with task 0
started, reached in one step under the configured limit `WORKER_POOL`. -/
theorem c1_witness :
    PoolReach WORKER_POOL [0, 1] initialState
      { queued := [1], running := [0], ledger := initialState, recorded := [] } ∧
    ({ queued := [1], running := [0], ledger := initialState,
        recorded := ([] : List (Nat × Bool)) } : PoolState).running.length ≤ WORKER_POOL := by
  have hstep : PoolStep WORKER_POOL (initPool [0, 1] initialState)
      { queued := [1], running := [0], ledger := initialState, recorded := [] } :=
    PoolStep.start (initPool [0, 1] initialState) 0 [1] rfl (by decide)
  exact ⟨Relation.ReflTransGen.single hstep,
    c1_inflight_bounded WORKER_POOL [0, 1] initialState _
      (Relation.ReflTransGen.single hstep)⟩

/-- C2 fails on the code: `run()` awaits `onEmpty()`, which resolves once
every task has been dequeued even though up to `limit` tasks are still in
flight.  Submitting the single pending item of a one-item ledger, the state
in which task 0 has started but not finished is reachable; there the
completion condition of `run()` already holds, yet no outcome callback has
been invoked (and the ledger still shows the item pending). -/
theorem c2_onEmpty_resolves_before_outcomes :
    ∃ st : PoolState,
      Relation.ReflTransGen (PoolStep WORKER_POOL)
        (runPool { isUploading := false, items := [{ id := some 0, success := none }] }) st ∧
      onEmptyResolved st ∧
      ¬ allOutcomesRecorded
        ((toProcess
          { isUploading := false, items := [{ id := some 0, success := none }] }).filterMap
          Part.id) st := by
  refine ⟨_, Relation.ReflTransGen.single
    (PoolStep.start
      (runPool { isUploading := false, items := [{ id := some 0, success := none }] })
      0 [] rfl (by decide)), rfl, ?_⟩
  intro h
  obtain ⟨b, hb⟩ := h 0 (by decide)
  exact List.not_mem_nil (0, b) hb

/-- Accounting invariant of the pool: every submitted identifier is queued,
running, or recorded. -/
lemma poolReach_ids (limit : Nat) (ids : List Nat) (s0 : State) (st : PoolState)
    (h : PoolReach limit ids s0 st) :
    ∀ i ∈ ids, i ∈ st.queued ∨ i ∈ st.running ∨ ∃ b, (i, b) ∈ st.recorded := by
  induction h with
  | refl => exact fun i hi => Or.inl hi
  | tail hab hbc ih =>
    intro i hi
    cases hbc with
    | start j rest hq hcap =>
      rcases ih i hi with h1 | h1 | h1
      · rw [hq] at h1
        rcases List.mem_cons.mp h1 with h2 | h2
        · exact Or.inr (Or.inl (by subst h2; exact List.mem_append_right _ (by simp)))
        · exact Or.inl h2
      · exact Or.inr (Or.inl (List.mem_append_left _ h1))
      · exact Or.inr (Or.inr h1)
    | finish j b hj =>
      rcases ih i hi with h1 | h1 | h1
      · exact Or.inl h1
      · by_cases hij : i = j
        · subst hij
          exact Or.inr (Or.inr ⟨b, List.mem_append_right _ (by simp)⟩)
        · exact Or.inr (Or.inl ((List.mem_erase_of_ne hij).mpr h1))
      · obtain ⟨b2, hb2⟩ := h1
        exact Or.inr (Or.inr ⟨b2, List.mem_append_left _ hb2⟩)

/-- Had `run()` awaited `onIdle()` (queue empty and nothing running), every
submitted identifier would have its outcome recorded at resolution — the
behaviour C2 asks of the completion signal. -/
lemma onIdle_all_recorded (limit : Nat) (ids : List Nat) (s0 : State) (st : PoolState)
    (h : PoolReach limit ids s0 st) (hq : st.queued = []) (hr : st.running = []) :
    allOutcomesRecorded ids st := by
  intro i hi
  rcases poolReach_ids limit ids s0 st h i hi with h1 | h1 | h1
  · rw [hq] at h1
    exact absurd h1 (List.not_mem_nil i)
  · rw [hr] at h1
    exact absurd h1 (List.not_mem_nil i)
  · exact h1

end App
